import Mathlib

/-!
Verification of the DS210 UFC fighter-data pipeline (Rust sources:
`src/io.rs`, `src/preprocess.rs`, `src/model.rs`).

The Rust code computes on `f32`. We embed the numeric domain as an IEEE-style
value type `F`: a finite value carrying an exact rational, plus the two
infinities and NaN. Rounding is not modelled (finite arithmetic is exact);
the special-value propagation of the operations the code uses (`<=`, `<`,
`min`, `max`, `-`, `/`, `is_nan`) follows IEEE-754 semantics, which is what
the Rust `f32` operations implement. Signed zero is not modelled; the one
zero behaves as `+0` (all divisions in the pipeline are either guarded to
positive denominators or hit the `d = 0` case only with `d` literally zero).

Finite arithmetic is implemented through `mkRat` (rather than the `Rat`
field operations) so that every definition evaluates by kernel reduction;
`qsub_eq`/`qdiv_eq` identify it with the Mathlib field structure on `ℚ`.
-/

/-- Exact subtraction on `ℚ` via `mkRat` (kernel-reducible). -/
def qsub (a b : ℚ) : ℚ :=
  mkRat (a.num * (b.den : Int) - b.num * (a.den : Int)) (a.den * b.den)

/-- Exact division on `ℚ` via `mkRat` (kernel-reducible); `qdiv a 0 = 0`. -/
def qdiv (a b : ℚ) : ℚ :=
  if b.num < 0 then mkRat (-(a.num * (b.den : Int))) (a.den * b.num.natAbs)
  else mkRat (a.num * (b.den : Int)) (a.den * b.num.natAbs)

theorem qsub_eq (a b : ℚ) : qsub a b = a - b := by
  have ha : ((a.den : ℚ)) ≠ 0 := Nat.cast_ne_zero.2 a.den_nz
  have hb : ((b.den : ℚ)) ≠ 0 := Nat.cast_ne_zero.2 b.den_nz
  conv_rhs => rw [← Rat.num_div_den a, ← Rat.num_div_den b]
  rw [qsub, Rat.mkRat_eq_divInt, Rat.divInt_eq_div]
  push_cast
  field_simp
  ring

theorem qdiv_eq (a b : ℚ) : qdiv a b = a / b := by
  rcases eq_or_ne b 0 with rfl | hb
  · simp [qdiv, mkRat]
  · have ha : ((a.den : ℚ)) ≠ 0 := Nat.cast_ne_zero.2 a.den_nz
    have hbd : ((b.den : ℚ)) ≠ 0 := Nat.cast_ne_zero.2 b.den_nz
    have hbn : b.num ≠ 0 := Rat.num_ne_zero.2 hb
    have hbnq : (b.num : ℚ) ≠ 0 := Int.cast_ne_zero.2 hbn
    conv_rhs => rw [← Rat.num_div_den a, ← Rat.num_div_den b]
    rw [qdiv]
    rcases lt_or_ge b.num 0 with h | h
    · rw [if_pos h, Rat.mkRat_eq_divInt, Rat.divInt_eq_div]
      push_cast
      rw [abs_of_neg (show (b.num : ℚ) < 0 by exact_mod_cast h)]
      field_simp
    · rw [if_neg (not_lt.2 h), Rat.mkRat_eq_divInt, Rat.divInt_eq_div]
      push_cast
      rw [abs_of_nonneg (show (0 : ℚ) ≤ (b.num : ℚ) by exact_mod_cast h)]
      field_simp

/-- IEEE-style `f32` value: exact finite rational, infinities, NaN. -/
inductive F where
  | fin : ℚ → F
  | inf : F
  | ninf : F
  | nan : F
deriving DecidableEq, Repr

namespace F

/-- `f32::is_nan`. -/
def isNan : F → Bool
  | .nan => true
  | _ => false

/-- Finiteness test (claim-side helper; the Rust code has no such check). -/
def isFinite : F → Bool
  | .fin _ => true
  | _ => false

/-- IEEE `<` (any comparison with NaN is false). -/
def lt : F → F → Bool
  | .fin a, .fin b => decide (a < b)
  | .fin _, .inf => true
  | .ninf, .fin _ => true
  | .ninf, .inf => true
  | _, _ => false

/-- IEEE `<=` (any comparison with NaN is false). -/
def le : F → F → Bool
  | .nan, _ => false
  | _, .nan => false
  | .fin a, .fin b => decide (a ≤ b)
  | .fin _, .inf => true
  | .fin _, .ninf => false
  | .inf, .inf => true
  | .inf, _ => false
  | .ninf, _ => true

/-- Rust `f32::min`: if one argument is NaN the other is returned. -/
def min : F → F → F
  | .nan, b => b
  | a, .nan => a
  | a, b => if F.lt a b then a else b

/-- Rust `f32::max`: if one argument is NaN the other is returned. -/
def max : F → F → F
  | .nan, b => b
  | a, .nan => a
  | a, b => if F.lt a b then b else a

/-- IEEE subtraction (exact on finite values). -/
def sub : F → F → F
  | .nan, _ => .nan
  | _, .nan => .nan
  | .fin a, .fin b => .fin (qsub a b)
  | .fin _, .inf => .ninf
  | .fin _, .ninf => .inf
  | .inf, .inf => .nan
  | .inf, _ => .inf
  | .ninf, .ninf => .nan
  | .ninf, _ => .ninf

/-- IEEE division (exact on finite values; zero denominator gives a signed
infinity or NaN, the zero of the model acting as `+0`). -/
def div : F → F → F
  | .nan, _ => .nan
  | _, .nan => .nan
  | .fin a, .fin b =>
      if b = 0 then (if a = 0 then .nan else if 0 < a then .inf else .ninf)
      else .fin (qdiv a b)
  | .fin _, .inf => .fin 0
  | .fin _, .ninf => .fin 0
  | .inf, .fin b => if 0 ≤ b then .inf else .ninf
  | .ninf, .fin b => if 0 ≤ b then .ninf else .inf
  | .inf, _ => .nan
  | .ninf, _ => .nan

end F

/-! ## Data model (`src/io.rs`, `src/preprocess.rs`) -/

/-- Calendar date (`chrono::NaiveDate` as far as the pipeline consumes it:
year, month, day). -/
structure Date where
  year : Int
  month : Nat
  day : Nat
deriving DecidableEq, Repr

/-- `io.rs`: `FighterRecord`, the 18-column raw CSV row. -/
structure FighterRecord where
  name : String
  nickname : Option String
  wins : Nat
  losses : Nat
  draws : Nat
  height_cm : Option F
  weight_in_kg : Option F
  reach_in_cm : Option F
  stance : String
  date_of_birth : Date
  significant_strikes_landed_per_minute : Option F
  significant_striking_accuracy : Option F
  significant_strikes_absorbed_per_minute : Option F
  significant_strike_defence : Option F
  average_takedowns_landed_per_15_minutes : Option F
  takedown_accuracy : Option F
  takedown_defense : Option F
  average_submissions_attempted_per_15_minutes : Option F
deriving DecidableEq, Repr

/-- `preprocess.rs`: the `Stance` enum. -/
inductive Stance where
  | Orthodox
  | Southpaw
  | Switch
deriving DecidableEq, Repr

/-- `preprocess.rs`: `impl FromStr for Stance` — exact, case-sensitive match
against the three labels, error otherwise. -/
def Stance.fromStr (s : String) : Except String Stance :=
  if s = "Orthodox" then .ok .Orthodox
  else if s = "Southpaw" then .ok .Southpaw
  else if s = "Switch" then .ok .Switch
  else .error ("Unknown stance: " ++ s)

/-- `preprocess.rs`: the `WeightClass` enum. -/
inductive WeightClass where
  | Flyweight
  | Bantamweight
  | Featherweight
  | Lightweight
  | Welterweight
  | Middleweight
  | LightHeavyweight
  | Heavyweight
deriving DecidableEq, Repr

/-- `preprocess.rs`: `CleanRecord`. -/
structure CleanRecord where
  stance : Stance
  is_orthodox : F
  is_southpaw : F
  is_switch : F
  weight_height_ratio : F
  reach_height_ratio : F
  submission_per_takedown : F
  weight_class : WeightClass
  age : F
  significant_strikes_lpm : F
  strike_diff : F
  takedown_lpm : F
  submission_lpm : F
  takedown_accuracy : F
  takedown_defense : F
  win_rate : F
deriving DecidableEq, Repr

/-! ## Feature Engineer (`src/preprocess.rs`, `preprocess`) -/

/-- Loop body of `preprocess`'s Pass 1 (`preprocess.rs` lines 81–164): the
per-record validity filter and feature derivation for a single
`FighterRecord`. `continue` in the Rust loop is `none` here; `today` is the
`Local::now().date_naive()` the function reads at entry. The weight-class
breakpoints `56.7, 61.2, …` are the exact rationals `mkRat 567 10, …`. -/
def clean1 (today : Date) (r : FighterRecord) : Option CleanRecord :=
  -- 1) unwrap or default numeric inputs
  let weight := r.weight_in_kg.getD (F.fin 0)
  let height := r.height_cm.getD (F.fin 0)
  let reach := r.reach_in_cm.getD (F.fin 0)
  if F.le weight (F.fin 0) || F.le height (F.fin 0) then none else
  let s_lpm := r.significant_strikes_landed_per_minute.getD (F.fin 0)
  let s_abs := r.significant_strikes_absorbed_per_minute.getD (F.fin 0)
  let tkl15 := r.average_takedowns_landed_per_15_minutes.getD (F.fin 0)
  let sub15 := r.average_submissions_attempted_per_15_minutes.getD (F.fin 0)
  let td_acc := r.takedown_accuracy.getD (F.fin 0)
  let td_def := r.takedown_defense.getD (F.fin 0)
  -- drop NaNs
  if ([weight, height, reach, s_lpm, s_abs, tkl15, sub15, td_acc, td_def].any
      F.isNan) then none else
  -- 2) parse stance + one-hot
  match Stance.fromStr r.stance with
  | .error _ => none
  | .ok stance =>
    let iso : F := match stance with
      | .Orthodox => F.fin 1
      | .Southpaw => F.fin 0
      | .Switch => F.fin 0
    let isp : F := match stance with
      | .Orthodox => F.fin 0
      | .Southpaw => F.fin 1
      | .Switch => F.fin 0
    let iss : F := match stance with
      | .Orthodox => F.fin 0
      | .Southpaw => F.fin 0
      | .Switch => F.fin 1
    -- 3) compute win rate
    let total : F := F.fin ((r.wins + r.losses + r.draws : Nat) : ℚ)
    let win_rate : F :=
      if F.lt (F.fin 0) total then F.div (F.fin ((r.wins : Nat) : ℚ)) total
      else F.fin 0
    -- compute age
    let age0 : Int := today.year - r.date_of_birth.year
    let age1 : Int :=
      if today.month < r.date_of_birth.month ∨
         (today.month = r.date_of_birth.month ∧ today.day < r.date_of_birth.day)
      then age0 - 1 else age0
    let age : F := F.fin (age1 : ℚ)
    -- 4) engineer features
    let weight_height_ratio := F.div weight height
    let reach_height_ratio := F.div reach height
    let takedown_lpm := F.div tkl15 (F.fin 15)
    let submission_lpm := F.div sub15 (F.fin 15)
    let submission_per_takedown :=
      if F.lt (F.fin 0) takedown_lpm then F.div submission_lpm takedown_lpm
      else F.fin 0
    let weight_class : WeightClass :=
      if F.lt weight (F.fin (mkRat 567 10)) then .Flyweight
      else if F.lt weight (F.fin (mkRat 612 10)) then .Bantamweight
      else if F.lt weight (F.fin (mkRat 658 10)) then .Featherweight
      else if F.lt weight (F.fin (mkRat 703 10)) then .Lightweight
      else if F.lt weight (F.fin (mkRat 771 10)) then .Welterweight
      else if F.lt weight (F.fin (mkRat 839 10)) then .Middleweight
      else if F.lt weight (F.fin (mkRat 930 10)) then .LightHeavyweight
      else .Heavyweight
    some {
      stance := stance
      is_orthodox := iso
      is_southpaw := isp
      is_switch := iss
      weight_height_ratio := weight_height_ratio
      reach_height_ratio := reach_height_ratio
      submission_per_takedown := submission_per_takedown
      weight_class := weight_class
      age := age
      significant_strikes_lpm := s_lpm
      strike_diff := F.sub s_lpm s_abs
      takedown_lpm := takedown_lpm
      submission_lpm := submission_lpm
      takedown_accuracy := td_acc
      takedown_defense := td_def
      win_rate := win_rate
    }

/-- `preprocess.rs` lines 172–194: the nested `normalize` helper — fold for
the feature's global min/max (from `(f32::INFINITY, f32::NEG_INFINITY)`),
then map `(v - min) / range` over the records, `0` if `range > 0` fails.
(The source name `normalize` collides with Mathlib's `normalize`.) -/
def normalizeF (records : List CleanRecord)
    (getter : CleanRecord → F) (setter : CleanRecord → F → CleanRecord) :
    List CleanRecord :=
  let mm := records.foldl
    (fun (p : F × F) r => (F.min p.1 (getter r), F.max p.2 (getter r)))
    (F.inf, F.ninf)
  let range := F.sub mm.2 mm.1
  records.map fun rec =>
    let v := getter rec
    setter rec (if F.lt (F.fin 0) range then F.div (F.sub v mm.1) range
                else F.fin 0)

/-- `preprocess.rs` `preprocess`: Pass 1 (`clean1` over every record), then
the eleven `normalize` calls of lines 197–207, in source order. -/
def preprocess (today : Date) (records : List FighterRecord) :
    List CleanRecord :=
  let cleaned := records.filterMap (clean1 today)
  let cleaned := normalizeF cleaned (fun r => r.weight_height_ratio)
    (fun r v => { r with weight_height_ratio := v })
  let cleaned := normalizeF cleaned (fun r => r.reach_height_ratio)
    (fun r v => { r with reach_height_ratio := v })
  let cleaned := normalizeF cleaned (fun r => r.submission_per_takedown)
    (fun r v => { r with submission_per_takedown := v })
  let cleaned := normalizeF cleaned (fun r => r.age)
    (fun r v => { r with age := v })
  let cleaned := normalizeF cleaned (fun r => r.significant_strikes_lpm)
    (fun r v => { r with significant_strikes_lpm := v })
  let cleaned := normalizeF cleaned (fun r => r.strike_diff)
    (fun r v => { r with strike_diff := v })
  let cleaned := normalizeF cleaned (fun r => r.takedown_lpm)
    (fun r v => { r with takedown_lpm := v })
  let cleaned := normalizeF cleaned (fun r => r.submission_lpm)
    (fun r v => { r with submission_lpm := v })
  let cleaned := normalizeF cleaned (fun r => r.takedown_accuracy)
    (fun r v => { r with takedown_accuracy := v })
  let cleaned := normalizeF cleaned (fun r => r.takedown_defense)
    (fun r v => { r with takedown_defense := v })
  let cleaned := normalizeF cleaned (fun r => r.win_rate)
    (fun r v => { r with win_rate := v })
  cleaned

/-- `preprocess.rs` `make_weight_driven_data`: load, then preprocess.
The `Except` input stands for the outcome of `io::load_csv` (see below). -/
def make_weight_driven_data (today : Date)
    (loaded : Except String (List FighterRecord)) :
    Except String (List CleanRecord) :=
  match loaded with
  | .error e => .error e
  | .ok raw => .ok (preprocess today raw)

/-! ## Record Loader (`src/io.rs`, `load_csv`)

The byte-level CSV parsing, the `csv` crate and the serde field-by-field
deserialization are external collaborators. The embedding starts where the
repository's own logic starts: the source is either unreadable (the
`File::open(path)?` / `rdr.headers()?` I/O fault, modelled as the `.error`
input) or it yields a header row plus a sequence of parsed rows, each a list
of string fields tagged with its line number (`raw.position().map(|p|
p.line())`). The serde deserialization `raw.deserialize::<FighterRecord>` is
a parameter `des`: `some` on success, `none` on any field's parse failure.
Each `eprintln!` diagnostic is materialized as a `Diag` value. -/

/-- One parsed CSV data row: line number and fields. -/
structure Row where
  line : Nat
  fields : List String
deriving DecidableEq, Repr

/-- The diagnostics `load_csv` writes to stderr: one per rejected row. -/
inductive Diag where
  | wrongFieldCount (line expected actual : Nat)
  | malformed (line : Nat)
deriving DecidableEq, Repr

/-- `f.trim().is_empty()`: a field is blank when every character is
whitespace (`String.trim` itself does not reduce in the kernel, so the
check is embedded as its all-whitespace characterization). -/
def isBlankField (f : String) : Bool := f.toList.all Char.isWhitespace

/-- One iteration of the `for result in rdr.records()` loop in `load_csv`
(`io.rs` lines 65–96): skip blank rows silently, reject wrong-arity rows
with a `wrongFieldCount` diagnostic, then deserialize — pushing the record
on success and emitting a `malformed` diagnostic on failure. -/
def rowStep (des : List String → Option FighterRecord) (expected : Nat)
    (acc : List FighterRecord × List Diag) (row : Row) :
    List FighterRecord × List Diag :=
  if row.fields.all isBlankField then acc
  else if row.fields.length ≠ expected then
    (acc.1, acc.2 ++ [Diag.wrongFieldCount row.line expected row.fields.length])
  else match des row.fields with
    | some rec => (acc.1 ++ [rec], acc.2)
    | none => (acc.1, acc.2 ++ [Diag.malformed row.line])

/-- `io.rs` `load_csv`: open/read the source (the only fatal, error-returning
condition), fix `expected_len` from the header row, then fold `rowStep` over
the data rows. -/
def load_csv (des : List String → Option FighterRecord)
    (input : Except String (List String × List Row)) :
    Except String (List FighterRecord × List Diag) :=
  match input with
  | .error e => .error e
  | .ok (headers, rows) => .ok (rows.foldl (rowStep des headers.length) ([], []))

/-! ## Regression feature matrix (`src/model.rs`, `train_model`)

The `linfa` least-squares fit is an external collaborator; the embedding
covers what `train_model` builds and hands to it: the `n × 19` matrix `x`
(rows in record order) and the target vector `y`. -/

/-- Rust `(bool) as u8 as f64`. -/
def boolF (b : Bool) : F := if b then F.fin 1 else F.fin 0

/-- `model.rs` lines 30–53: one row of the feature matrix `x`, in column
order 0–18 — stance one-hots with Orthodox as baseline, weight-class
one-hots with Flyweight as baseline, then the ten numeric features. -/
def featureRow (r : CleanRecord) : List F :=
  [r.is_southpaw, r.is_switch,
   boolF (r.weight_class = .Bantamweight),
   boolF (r.weight_class = .Featherweight),
   boolF (r.weight_class = .Lightweight),
   boolF (r.weight_class = .Welterweight),
   boolF (r.weight_class = .Middleweight),
   boolF (r.weight_class = .LightHeavyweight),
   boolF (r.weight_class = .Heavyweight),
   r.weight_height_ratio, r.reach_height_ratio, r.submission_per_takedown,
   r.age, r.significant_strikes_lpm, r.strike_diff, r.takedown_lpm,
   r.submission_lpm, r.takedown_accuracy, r.takedown_defense]

/-- The matrix `x` of `train_model`: one `featureRow` per record. -/
def featureMatrix (records : List CleanRecord) : List (List F) :=
  records.map featureRow

/-- The target vector `y` of `train_model`: each record's `win_rate`. -/
def targetVector (records : List CleanRecord) : List F :=
  records.map (fun r => r.win_rate)

/-! ## Claim-side helpers -/

/-- Minimum of a set of `f32` values, as the source computes it: fold of
`f32::min` from `f32::INFINITY` (`preprocess.rs` line 178). -/
def listMin (vs : List F) : F := vs.foldl F.min F.inf

/-- Maximum, fold of `f32::max` from `f32::NEG_INFINITY`. -/
def listMax (vs : List F) : F := vs.foldl F.max F.ninf

/-- The value list produced by one `normalizeF` pass, abstracted away from
the record structure: min/max fold, then `(v - min) / range`, `0` if
`range > 0` fails. -/
def normVals (vs : List F) : List F :=
  let mn := listMin vs
  let range := F.sub (listMax vs) mn
  vs.map fun v =>
    if F.lt (F.fin 0) range then F.div (F.sub v mn) range else F.fin 0

/-- All values of a list equal. -/
def allEqL (vs : List F) : Prop := ∀ a ∈ vs, ∀ b ∈ vs, a = b

instance (vs : List F) : Decidable (allEqL vs) := by
  unfold allEqL
  infer_instance

/-- The eleven numeric features `preprocess` normalizes
(`preprocess.rs` lines 197–207, in source order). -/
inductive Feat where
  | whr | rhr | spt | age | slpm | sdiff | tlpm | sublpm | tdacc | tddef | wr
deriving DecidableEq, Repr

/-- Projection of a `CleanRecord` on a normalized feature. -/
def getF : Feat → CleanRecord → F
  | .whr => fun c => c.weight_height_ratio
  | .rhr => fun c => c.reach_height_ratio
  | .spt => fun c => c.submission_per_takedown
  | .age => fun c => c.age
  | .slpm => fun c => c.significant_strikes_lpm
  | .sdiff => fun c => c.strike_diff
  | .tlpm => fun c => c.takedown_lpm
  | .sublpm => fun c => c.submission_lpm
  | .tdacc => fun c => c.takedown_accuracy
  | .tddef => fun c => c.takedown_defense
  | .wr => fun c => c.win_rate

/-! ## Structural lemmas about the normalization pass -/

theorem foldl_minmax (g : CleanRecord → F) (rs : List CleanRecord) (a b : F) :
    rs.foldl (fun (p : F × F) r => (F.min p.1 (g r), F.max p.2 (g r))) (a, b)
      = ((rs.map g).foldl F.min a, (rs.map g).foldl F.max b) := by
  induction rs generalizing a b with
  | nil => rfl
  | cons x xs ih => simp only [List.foldl_cons, List.map_cons, ih]

/-- A `normalizeF` pass leaves every field other than its own untouched. -/
theorem normalizeF_map_other {β : Type} {rs : List CleanRecord}
    {g : CleanRecord → F} {s : CleanRecord → F → CleanRecord}
    {g' : CleanRecord → β}
    (h : ∀ r v, g' (s r v) = g' r) :
    (normalizeF rs g s).map g' = rs.map g' := by
  simp only [normalizeF, List.map_map, Function.comp_def, h]

/-- A `normalizeF` pass turns its own feature's values into `normVals`. -/
theorem normalizeF_map_self {rs : List CleanRecord} {g : CleanRecord → F}
    {s : CleanRecord → F → CleanRecord}
    (h : ∀ r v, g (s r v) = v) :
    (normalizeF rs g s).map g = normVals (rs.map g) := by
  simp only [normalizeF, normVals, listMin, listMax, foldl_minmax,
    List.map_map, Function.comp_def, h]

theorem preprocess_map_feat (f : Feat) (today : Date) (rs : List FighterRecord) :
    (preprocess today rs).map (getF f)
      = normVals ((rs.filterMap (clean1 today)).map (getF f)) := by
  cases f
  case whr =>
    simp only [preprocess, getF]
    rw [normalizeF_map_other, normalizeF_map_other, normalizeF_map_other, normalizeF_map_other, normalizeF_map_other, normalizeF_map_other, normalizeF_map_other, normalizeF_map_other, normalizeF_map_other, normalizeF_map_other, normalizeF_map_self]
    all_goals exact fun r v => rfl
  case rhr =>
    simp only [preprocess, getF]
    rw [normalizeF_map_other, normalizeF_map_other, normalizeF_map_other, normalizeF_map_other, normalizeF_map_other, normalizeF_map_other, normalizeF_map_other, normalizeF_map_other, normalizeF_map_other, normalizeF_map_self, normalizeF_map_other]
    all_goals exact fun r v => rfl
  case spt =>
    simp only [preprocess, getF]
    rw [normalizeF_map_other, normalizeF_map_other, normalizeF_map_other, normalizeF_map_other, normalizeF_map_other, normalizeF_map_other, normalizeF_map_other, normalizeF_map_other, normalizeF_map_self, normalizeF_map_other, normalizeF_map_other]
    all_goals exact fun r v => rfl
  case age =>
    simp only [preprocess, getF]
    rw [normalizeF_map_other, normalizeF_map_other, normalizeF_map_other, normalizeF_map_other, normalizeF_map_other, normalizeF_map_other, normalizeF_map_other, normalizeF_map_self, normalizeF_map_other, normalizeF_map_other, normalizeF_map_other]
    all_goals exact fun r v => rfl
  case slpm =>
    simp only [preprocess, getF]
    rw [normalizeF_map_other, normalizeF_map_other, normalizeF_map_other, normalizeF_map_other, normalizeF_map_other, normalizeF_map_other, normalizeF_map_self, normalizeF_map_other, normalizeF_map_other, normalizeF_map_other, normalizeF_map_other]
    all_goals exact fun r v => rfl
  case sdiff =>
    simp only [preprocess, getF]
    rw [normalizeF_map_other, normalizeF_map_other, normalizeF_map_other, normalizeF_map_other, normalizeF_map_other, normalizeF_map_self, normalizeF_map_other, normalizeF_map_other, normalizeF_map_other, normalizeF_map_other, normalizeF_map_other]
    all_goals exact fun r v => rfl
  case tlpm =>
    simp only [preprocess, getF]
    rw [normalizeF_map_other, normalizeF_map_other, normalizeF_map_other, normalizeF_map_other, normalizeF_map_self, normalizeF_map_other, normalizeF_map_other, normalizeF_map_other, normalizeF_map_other, normalizeF_map_other, normalizeF_map_other]
    all_goals exact fun r v => rfl
  case sublpm =>
    simp only [preprocess, getF]
    rw [normalizeF_map_other, normalizeF_map_other, normalizeF_map_other, normalizeF_map_self, normalizeF_map_other, normalizeF_map_other, normalizeF_map_other, normalizeF_map_other, normalizeF_map_other, normalizeF_map_other, normalizeF_map_other]
    all_goals exact fun r v => rfl
  case tdacc =>
    simp only [preprocess, getF]
    rw [normalizeF_map_other, normalizeF_map_other, normalizeF_map_self, normalizeF_map_other, normalizeF_map_other, normalizeF_map_other, normalizeF_map_other, normalizeF_map_other, normalizeF_map_other, normalizeF_map_other, normalizeF_map_other]
    all_goals exact fun r v => rfl
  case tddef =>
    simp only [preprocess, getF]
    rw [normalizeF_map_other, normalizeF_map_self, normalizeF_map_other, normalizeF_map_other, normalizeF_map_other, normalizeF_map_other, normalizeF_map_other, normalizeF_map_other, normalizeF_map_other, normalizeF_map_other, normalizeF_map_other]
    all_goals exact fun r v => rfl
  case wr =>
    simp only [preprocess, getF]
    rw [normalizeF_map_self, normalizeF_map_other, normalizeF_map_other, normalizeF_map_other, normalizeF_map_other, normalizeF_map_other, normalizeF_map_other, normalizeF_map_other, normalizeF_map_other, normalizeF_map_other, normalizeF_map_other]
    all_goals exact fun r v => rfl

/-- The fields that are not in the normalize list — the `stance` and
`weight_class` enums and the three stance one-hots — pass through Pass 2
unchanged. -/
theorem preprocess_map_unnormalized (today : Date) (rs : List FighterRecord)
    (g' : CleanRecord → F)
    (h : g' = (fun c => c.is_orthodox) ∨ g' = (fun c => c.is_southpaw) ∨
         g' = (fun c => c.is_switch)) :
    (preprocess today rs).map g' = (rs.filterMap (clean1 today)).map g' := by
  rcases h with rfl | rfl | rfl <;>
  · simp only [preprocess]
    rw [normalizeF_map_other, normalizeF_map_other, normalizeF_map_other,
      normalizeF_map_other, normalizeF_map_other, normalizeF_map_other,
      normalizeF_map_other, normalizeF_map_other, normalizeF_map_other,
      normalizeF_map_other, normalizeF_map_other]
    all_goals exact fun r v => rfl

theorem mem_normalizeF {rs : List CleanRecord} {g : CleanRecord → F}
    {s : CleanRecord → F → CleanRecord} {c : CleanRecord}
    (hc : c ∈ normalizeF rs g s) : ∃ c' ∈ rs, ∃ v, c = s c' v := by
  simp only [normalizeF, List.mem_map] at hc
  obtain ⟨c', hc', h⟩ := hc
  exact ⟨c', hc', _, h.symm⟩

/-- The categorical payload of a record: stance enum, one-hot flags,
weight class. -/
def sameCat (c c' : CleanRecord) : Prop :=
  c.stance = c'.stance ∧ c.is_orthodox = c'.is_orthodox ∧
  c.is_southpaw = c'.is_southpaw ∧ c.is_switch = c'.is_switch ∧
  c.weight_class = c'.weight_class

theorem sameCat_trans {a b c : CleanRecord} (h1 : sameCat a b)
    (h2 : sameCat b c) : sameCat a c :=
  ⟨h1.1.trans h2.1, h1.2.1.trans h2.2.1, h1.2.2.1.trans h2.2.2.1,
   h1.2.2.2.1.trans h2.2.2.2.1, h1.2.2.2.2.trans h2.2.2.2.2⟩

theorem mem_normalizeF_sameCat {rs : List CleanRecord} {g : CleanRecord → F}
    {s : CleanRecord → F → CleanRecord} {c : CleanRecord}
    (hc : c ∈ normalizeF rs g s) (hs : ∀ r v, sameCat (s r v) r) :
    ∃ c' ∈ rs, sameCat c c' := by
  obtain ⟨c', h', v, rfl⟩ := mem_normalizeF hc
  exact ⟨c', h', hs c' v⟩

/-- Every record of `preprocess`'s output comes from a Pass-1 record with
the same stance enum, one-hot flags and weight class. -/
theorem preprocess_mem {today : Date} {rs : List FighterRecord}
    {c : CleanRecord} (hc : c ∈ preprocess today rs) :
    ∃ c' ∈ rs.filterMap (clean1 today), sameCat c c' := by
  simp only [preprocess] at hc
  obtain ⟨c1, h1, r1⟩ := mem_normalizeF_sameCat hc
    (fun r v => ⟨rfl, rfl, rfl, rfl, rfl⟩)
  obtain ⟨c2, h2, r2⟩ := mem_normalizeF_sameCat h1
    (fun r v => ⟨rfl, rfl, rfl, rfl, rfl⟩)
  obtain ⟨c3, h3, r3⟩ := mem_normalizeF_sameCat h2
    (fun r v => ⟨rfl, rfl, rfl, rfl, rfl⟩)
  obtain ⟨c4, h4, r4⟩ := mem_normalizeF_sameCat h3
    (fun r v => ⟨rfl, rfl, rfl, rfl, rfl⟩)
  obtain ⟨c5, h5, r5⟩ := mem_normalizeF_sameCat h4
    (fun r v => ⟨rfl, rfl, rfl, rfl, rfl⟩)
  obtain ⟨c6, h6, r6⟩ := mem_normalizeF_sameCat h5
    (fun r v => ⟨rfl, rfl, rfl, rfl, rfl⟩)
  obtain ⟨c7, h7, r7⟩ := mem_normalizeF_sameCat h6
    (fun r v => ⟨rfl, rfl, rfl, rfl, rfl⟩)
  obtain ⟨c8, h8, r8⟩ := mem_normalizeF_sameCat h7
    (fun r v => ⟨rfl, rfl, rfl, rfl, rfl⟩)
  obtain ⟨c9, h9, r9⟩ := mem_normalizeF_sameCat h8
    (fun r v => ⟨rfl, rfl, rfl, rfl, rfl⟩)
  obtain ⟨c10, h10, r10⟩ := mem_normalizeF_sameCat h9
    (fun r v => ⟨rfl, rfl, rfl, rfl, rfl⟩)
  obtain ⟨c11, h11, r11⟩ := mem_normalizeF_sameCat h10
    (fun r v => ⟨rfl, rfl, rfl, rfl, rfl⟩)
  exact ⟨c11, h11,
    sameCat_trans r1 (sameCat_trans r2 (sameCat_trans r3 (sameCat_trans r4
      (sameCat_trans r5 (sameCat_trans r6 (sameCat_trans r7 (sameCat_trans r8
        (sameCat_trans r9 (sameCat_trans r10 r11)))))))))⟩

/-- Inversion of a successful Pass-1 run: the surviving record's stance /
one-hot / rate / win-rate fields in terms of the input. -/
theorem clean1_some_fields {today : Date} {r : FighterRecord} {c : CleanRecord}
    (h : clean1 today r = some c) :
    Stance.fromStr r.stance = .ok c.stance ∧
    (c.is_orthodox, c.is_southpaw, c.is_switch) =
      (match c.stance with
        | .Orthodox => (F.fin 1, F.fin 0, F.fin 0)
        | .Southpaw => (F.fin 0, F.fin 1, F.fin 0)
        | .Switch => (F.fin 0, F.fin 0, F.fin 1)) ∧
    c.takedown_lpm =
      F.div (r.average_takedowns_landed_per_15_minutes.getD (F.fin 0)) (F.fin 15) ∧
    c.submission_lpm =
      F.div (r.average_submissions_attempted_per_15_minutes.getD (F.fin 0)) (F.fin 15) ∧
    c.submission_per_takedown =
      (if F.lt (F.fin 0) c.takedown_lpm
       then F.div c.submission_lpm c.takedown_lpm else F.fin 0) ∧
    c.win_rate =
      (if F.lt (F.fin 0) (F.fin ((r.wins + r.losses + r.draws : Nat) : ℚ))
       then F.div (F.fin ((r.wins : Nat) : ℚ))
              (F.fin ((r.wins + r.losses + r.draws : Nat) : ℚ))
       else F.fin 0) := by
  simp only [clean1] at h
  by_cases hw : (F.le (r.weight_in_kg.getD (F.fin 0)) (F.fin 0) ||
      F.le (r.height_cm.getD (F.fin 0)) (F.fin 0)) = true
  · rw [if_pos hw] at h; cases h
  · rw [if_neg hw] at h
    by_cases hn : ([r.weight_in_kg.getD (F.fin 0), r.height_cm.getD (F.fin 0),
        r.reach_in_cm.getD (F.fin 0),
        r.significant_strikes_landed_per_minute.getD (F.fin 0),
        r.significant_strikes_absorbed_per_minute.getD (F.fin 0),
        r.average_takedowns_landed_per_15_minutes.getD (F.fin 0),
        r.average_submissions_attempted_per_15_minutes.getD (F.fin 0),
        r.takedown_accuracy.getD (F.fin 0),
        r.takedown_defense.getD (F.fin 0)].any F.isNan) = true
    · rw [if_pos hn] at h; cases h
    · rw [if_neg hn] at h
      rcases hs : Stance.fromStr r.stance with e | st
      · rw [hs] at h; cases h
      · rw [hs] at h
        simp only [] at h
        cases st <;>
        · injection h with h
          subst h
          exact ⟨rfl, rfl, rfl, rfl, rfl, rfl⟩

/-! ## Rational fold lemmas (for the min/max reduction) -/

theorem qfoldl_min_le_init (l : List ℚ) (a : ℚ) : l.foldl min a ≤ a := by
  induction l generalizing a with
  | nil => exact le_refl a
  | cons x xs ih => exact le_trans (ih (Min.min a x)) (min_le_left a x)

theorem qfoldl_min_le (l : List ℚ) (a b : ℚ) (hb : b ∈ l) :
    l.foldl min a ≤ b := by
  induction l generalizing a with
  | nil => cases hb
  | cons x xs ih =>
    rcases List.mem_cons.1 hb with rfl | hb'
    · exact le_trans (qfoldl_min_le_init xs (Min.min a b)) (min_le_right a b)
    · exact ih (Min.min a x) hb'

theorem qfoldl_min_mem (l : List ℚ) (a : ℚ) :
    l.foldl min a = a ∨ l.foldl min a ∈ l := by
  induction l generalizing a with
  | nil => exact Or.inl rfl
  | cons x xs ih =>
    rcases ih (Min.min a x) with h | h
    · rcases le_total a x with hax | hax
      · exact Or.inl (by rw [List.foldl_cons, h, min_eq_left hax])
      · exact Or.inr (by
          rw [List.foldl_cons, h, min_eq_right hax]
          exact List.mem_cons_self x xs)
    · exact Or.inr (List.mem_cons_of_mem x h)

theorem qfoldl_min_ge (l : List ℚ) (a c : ℚ) (hc : c ≤ a)
    (h : ∀ b ∈ l, c ≤ b) : c ≤ l.foldl min a := by
  induction l generalizing a with
  | nil => exact hc
  | cons x xs ih =>
    exact ih (Min.min a x) (le_min hc (h x (List.mem_cons_self x xs)))
      (fun b hb => h b (List.mem_cons_of_mem x hb))

theorem qfoldl_max_ge_init (l : List ℚ) (a : ℚ) : a ≤ l.foldl max a := by
  induction l generalizing a with
  | nil => exact le_refl a
  | cons x xs ih => exact le_trans (le_max_left a x) (ih (Max.max a x))

theorem qfoldl_max_ge (l : List ℚ) (a b : ℚ) (hb : b ∈ l) :
    b ≤ l.foldl max a := by
  induction l generalizing a with
  | nil => cases hb
  | cons x xs ih =>
    rcases List.mem_cons.1 hb with rfl | hb'
    · exact le_trans (le_max_right a b) (qfoldl_max_ge_init xs (Max.max a b))
    · exact ih (Max.max a x) hb'

theorem qfoldl_max_mem (l : List ℚ) (a : ℚ) :
    l.foldl max a = a ∨ l.foldl max a ∈ l := by
  induction l generalizing a with
  | nil => exact Or.inl rfl
  | cons x xs ih =>
    rcases ih (Max.max a x) with h | h
    · rcases le_total x a with hax | hax
      · exact Or.inl (by rw [List.foldl_cons, h, max_eq_left hax])
      · exact Or.inr (by
          rw [List.foldl_cons, h, max_eq_right hax]
          exact List.mem_cons_self x xs)
    · exact Or.inr (List.mem_cons_of_mem x h)

theorem qfoldl_max_le (l : List ℚ) (a c : ℚ) (hc : a ≤ c)
    (h : ∀ b ∈ l, b ≤ c) : l.foldl max a ≤ c := by
  induction l generalizing a with
  | nil => exact hc
  | cons x xs ih =>
    exact ih (Max.max a x) (max_le hc (h x (List.mem_cons_self x xs)))
      (fun b hb => h b (List.mem_cons_of_mem x hb))

/-! ## `F`-level min/max lemmas -/

theorem Fmin_fin (a b : ℚ) : F.min (F.fin a) (F.fin b) = F.fin (Min.min a b) := by
  by_cases h : a < b
  · simp [F.min, F.lt, h, min_eq_left h.le]
  · simp [F.min, F.lt, h, min_eq_right (not_lt.1 h)]

theorem Fmax_fin (a b : ℚ) : F.max (F.fin a) (F.fin b) = F.fin (Max.max a b) := by
  by_cases h : a < b
  · simp [F.max, F.lt, h, max_eq_right h.le]
  · simp [F.max, F.lt, h, max_eq_left (not_lt.1 h)]

theorem Fsub_fin (a b : ℚ) : F.sub (F.fin a) (F.fin b) = F.fin (a - b) := by
  simp [F.sub, qsub_eq]

theorem Fdiv_fin (a b : ℚ) (hb : b ≠ 0) :
    F.div (F.fin a) (F.fin b) = F.fin (a / b) := by
  simp [F.div, hb, qdiv_eq]

theorem foldl_Fmin_fin (l : List ℚ) : ∀ a : ℚ,
    (l.map F.fin).foldl F.min (F.fin a) = F.fin (l.foldl min a) := by
  induction l with
  | nil => intro a; rfl
  | cons x xs ih =>
    intro a
    rw [List.map_cons, List.foldl_cons, List.foldl_cons, Fmin_fin]
    exact ih _

theorem foldl_Fmax_fin (l : List ℚ) : ∀ a : ℚ,
    (l.map F.fin).foldl F.max (F.fin a) = F.fin (l.foldl max a) := by
  induction l with
  | nil => intro a; rfl
  | cons x xs ih =>
    intro a
    rw [List.map_cons, List.foldl_cons, List.foldl_cons, Fmax_fin]
    exact ih _

theorem listMin_fin_cons (q : ℚ) (l : List ℚ) :
    listMin ((q :: l).map F.fin) = F.fin (l.foldl min q) := by
  rw [List.map_cons, listMin, List.foldl_cons]
  exact foldl_Fmin_fin l q

theorem listMax_fin_cons (q : ℚ) (l : List ℚ) :
    listMax ((q :: l).map F.fin) = F.fin (l.foldl max q) := by
  rw [List.map_cons, listMax, List.foldl_cons]
  exact foldl_Fmax_fin l q

/-- Core of the degenerate-free normalization claim, on the value lists: a
list of finite values with at least two distinct elements normalizes to a
list with minimum exactly `0` and maximum exactly `1`. -/
theorem normVals_minmax_fin (q : ℚ) (l : List ℚ)
    (hne : ∃ a ∈ q :: l, ∃ b ∈ q :: l, a ≠ b) :
    listMin (normVals ((q :: l).map F.fin)) = F.fin 0 ∧
    listMax (normVals ((q :: l).map F.fin)) = F.fin 1 := by
  set m := l.foldl min q with hm
  set M := l.foldl max q with hM
  have hm_le : ∀ b ∈ q :: l, m ≤ b := by
    intro b hb
    rcases List.mem_cons.1 hb with rfl | hb'
    · exact qfoldl_min_le_init l b
    · exact qfoldl_min_le l q b hb'
  have hM_ge : ∀ b ∈ q :: l, b ≤ M := by
    intro b hb
    rcases List.mem_cons.1 hb with rfl | hb'
    · exact qfoldl_max_ge_init l b
    · exact qfoldl_max_ge l q b hb'
  have hm_mem : m ∈ q :: l := by
    rcases qfoldl_min_mem l q with h | h
    · rw [hm, h]; exact List.mem_cons_self q l
    · exact List.mem_cons_of_mem q h
  have hM_mem : M ∈ q :: l := by
    rcases qfoldl_max_mem l q with h | h
    · rw [hM, h]; exact List.mem_cons_self q l
    · exact List.mem_cons_of_mem q h
  have hmM : m < M := by
    obtain ⟨a, ha, b, hb, hab⟩ := hne
    rcases lt_trichotomy a b with h | h | h
    · exact lt_of_le_of_lt (hm_le a ha) (lt_of_lt_of_le h (hM_ge b hb))
    · exact absurd h hab
    · exact lt_of_le_of_lt (hm_le b hb) (lt_of_lt_of_le h (hM_ge a ha))
  have hrange : (0 : ℚ) < M - m := sub_pos.2 hmM
  have hvals : normVals ((q :: l).map F.fin)
      = ((q :: l).map (fun x => (x - m) / (M - m))).map F.fin := by
    simp only [normVals, listMin_fin_cons, listMax_fin_cons, ← hm, ← hM,
      Fsub_fin, List.map_map]
    have hfun : (fun v => if F.lt (F.fin 0) (F.fin (M - m)) = true
          then F.div (F.sub v (F.fin m)) (F.fin (M - m)) else F.fin 0) ∘ F.fin
        = F.fin ∘ (fun x => (x - m) / (M - m)) := by
      funext x
      simp only [Function.comp_apply, F.lt, decide_eq_true_eq, hrange, if_true,
        Fsub_fin, Fdiv_fin _ _ (ne_of_gt hrange)]
    rw [hfun]
  constructor
  · rw [hvals, List.map_cons, listMin_fin_cons]
    congr 1
    apply le_antisymm
    · rcases List.mem_cons.1 hm_mem with h | h
      · have hq : (q - m) / (M - m) = 0 := by rw [← h, sub_self, zero_div]
        exact le_of_le_of_eq (qfoldl_min_le_init _ _) hq
      · have hmem : (0 : ℚ) ∈ l.map (fun x => (x - m) / (M - m)) := by
          refine List.mem_map.2 ⟨m, h, ?_⟩
          rw [sub_self, zero_div]
        exact qfoldl_min_le _ _ _ hmem
    · refine qfoldl_min_ge _ _ _ ?_ ?_
      · exact div_nonneg (sub_nonneg.2 (hm_le q (List.mem_cons_self q l)))
          hrange.le
      · intro b hb
        obtain ⟨x, hx, rfl⟩ := List.mem_map.1 hb
        exact div_nonneg
          (sub_nonneg.2 (hm_le x (List.mem_cons_of_mem q hx))) hrange.le
  · rw [hvals, List.map_cons, listMax_fin_cons]
    congr 1
    apply le_antisymm
    · refine qfoldl_max_le _ _ _ ?_ ?_
      · exact (div_le_one hrange).2
          (sub_le_sub_right (hM_ge q (List.mem_cons_self q l)) m)
      · intro b hb
        obtain ⟨x, hx, rfl⟩ := List.mem_map.1 hb
        exact (div_le_one hrange).2
          (sub_le_sub_right (hM_ge x (List.mem_cons_of_mem q hx)) m)
    · rcases List.mem_cons.1 hM_mem with h | h
      · have hq : (q - m) / (M - m) = 1 := by
          rw [← h]; exact div_self (ne_of_gt hrange)
        exact le_of_eq_of_le hq.symm (qfoldl_max_ge_init _ _)
      · have hmem : (1 : ℚ) ∈ l.map (fun x => (x - m) / (M - m)) := by
          refine List.mem_map.2 ⟨M, h, ?_⟩
          exact div_self (ne_of_gt hrange)
        exact qfoldl_max_ge _ _ _ hmem

theorem foldl_const {f : F → F → F} {a v : F} (h : f a v = a) :
    ∀ n : Nat, (List.replicate n v).foldl f a = a := by
  intro n
  induction n with
  | zero => rfl
  | succ k ih => rw [List.replicate_succ, List.foldl_cons, h]; exact ih

/-- Degenerate branch: a constant value list (of any `F` values, finite or
not) normalizes to all-zero, because `range > 0` fails. -/
theorem normVals_allEq (vs : List F) (h : allEqL vs) :
    normVals vs = List.replicate vs.length (F.fin 0) := by
  rcases vs with _ | ⟨v, rest⟩
  · rfl
  · have hrep : v :: rest = List.replicate (rest.length + 1) v := by
      rw [List.eq_replicate_iff]
      exact ⟨by simp, fun b hb => h b hb v (List.mem_cons_self v rest)⟩
    rw [hrep]
    generalize rest.length + 1 = n
    rcases n with _ | k
    · rfl
    · have hmin : listMin (List.replicate (k + 1) v) = F.min F.inf v := by
        rw [listMin, List.replicate_succ, List.foldl_cons]
        exact foldl_const (by cases v <;> simp [F.min, F.lt]) k
      have hmax : listMax (List.replicate (k + 1) v) = F.max F.ninf v := by
        rw [listMax, List.replicate_succ, List.foldl_cons]
        exact foldl_const (by cases v <;> simp [F.max, F.lt]) k
      have hcond : F.lt (F.fin 0) (F.sub (F.max F.ninf v) (F.min F.inf v))
          = false := by
        cases v <;> simp [F.min, F.max, F.lt, F.sub, qsub_eq]
      simp only [normVals, hmin, hmax, hcond, Bool.false_eq_true, if_false,
        List.map_replicate, List.length_replicate]

theorem all_isFinite_exists (vs : List F) (h : ∀ v ∈ vs, v.isFinite = true) :
    ∃ qs : List ℚ, vs = qs.map F.fin := by
  induction vs with
  | nil => exact ⟨[], rfl⟩
  | cons v rest ih =>
    obtain ⟨qs, hqs⟩ := ih (fun x hx => h x (List.mem_cons_of_mem v hx))
    rcases v with q | _ | _ | _
    · exact ⟨q :: qs, by rw [List.map_cons, hqs]⟩
    all_goals exact absurd (h _ (List.mem_cons_self _ _)) (by simp [F.isFinite])

/-! ## Sample inputs (shared by witnesses and counterexamples) -/

/-- A fixed "today" for the clock-dependent age feature. -/
def d0 : Date := ⟨2026, 10, 12⟩

/-- A fully populated valid record. -/
def rOrthodox : FighterRecord := {
  name := "A", nickname := none, wins := 10, losses := 2, draws := 1,
  height_cm := some (F.fin 180), weight_in_kg := some (F.fin 70),
  reach_in_cm := some (F.fin 190), stance := "Orthodox",
  date_of_birth := ⟨1990, 1, 1⟩,
  significant_strikes_landed_per_minute := some (F.fin 5),
  significant_striking_accuracy := none,
  significant_strikes_absorbed_per_minute := some (F.fin 3),
  significant_strike_defence := none,
  average_takedowns_landed_per_15_minutes := some (F.fin 30),
  takedown_accuracy := some (F.fin (mkRat 1 2)),
  takedown_defense := some (F.fin (mkRat 3 5)),
  average_submissions_attempted_per_15_minutes := some (F.fin 15) }

/-- Same, southpaw and heavier. -/
def rSouthpaw : FighterRecord :=
  { rOrthodox with stance := "Southpaw", weight_in_kg := some (F.fin 90) }

/-- Infinite weight: `"inf"` parses as an `f32` infinity, is strictly
positive and is not NaN, so the record survives Pass 1. -/
def rInfinite : FighterRecord :=
  { rOrthodox with stance := "Southpaw", weight_in_kg := some F.inf }

/-- `clean1 d0 rOrthodox`: the Pass-1 (pre-normalization) output. -/
def cOrthodoxPre : CleanRecord := {
  stance := .Orthodox, is_orthodox := F.fin 1, is_southpaw := F.fin 0,
  is_switch := F.fin 0, weight_height_ratio := F.fin (mkRat 7 18),
  reach_height_ratio := F.fin (mkRat 19 18),
  submission_per_takedown := F.fin (mkRat 1 2),
  weight_class := .Lightweight, age := F.fin 36,
  significant_strikes_lpm := F.fin 5, strike_diff := F.fin 2,
  takedown_lpm := F.fin 2, submission_lpm := F.fin 1,
  takedown_accuracy := F.fin (mkRat 1 2),
  takedown_defense := F.fin (mkRat 3 5), win_rate := F.fin (mkRat 10 13) }

/-- `preprocess d0 [rOrthodox]`: the single-survivor output — every
normalized feature is `0`, the one-hots and enums untouched. -/
def cOrthodoxPost : CleanRecord := {
  stance := .Orthodox, is_orthodox := F.fin 1, is_southpaw := F.fin 0,
  is_switch := F.fin 0, weight_height_ratio := F.fin 0,
  reach_height_ratio := F.fin 0, submission_per_takedown := F.fin 0,
  weight_class := .Lightweight, age := F.fin 0,
  significant_strikes_lpm := F.fin 0, strike_diff := F.fin 0,
  takedown_lpm := F.fin 0, submission_lpm := F.fin 0,
  takedown_accuracy := F.fin 0, takedown_defense := F.fin 0,
  win_rate := F.fin 0 }

/-! ## C1 -/

/-- C1, amended: after Pass-2 min-max normalization, for every normalized
numeric feature, **provided the feature's raw (pre-normalization) values are
all finite**: if at least two CleanRecords survive and the raw values are
not all equal, the minimum of the feature across the surviving set is
exactly 0 and the maximum exactly 1; and whenever the raw values are all
equal (single survivor included, no finiteness needed) every instance is
exactly 0. The finiteness proviso is forced: an infinite raw value makes
`range` infinite and the affected quotient NaN (see the counterexample). -/
theorem c1_minmax_normalization (f : Feat) (today : Date)
    (records : List FighterRecord) :
    (2 ≤ (records.filterMap (clean1 today)).length →
     (∀ v ∈ (records.filterMap (clean1 today)).map (getF f),
        v.isFinite = true) →
     ¬ allEqL ((records.filterMap (clean1 today)).map (getF f)) →
     listMin ((preprocess today records).map (getF f)) = F.fin 0 ∧
     listMax ((preprocess today records).map (getF f)) = F.fin 1) ∧
    (allEqL ((records.filterMap (clean1 today)).map (getF f)) →
     (preprocess today records).map (getF f)
       = List.replicate (records.filterMap (clean1 today)).length (F.fin 0)) := by
  have hmap := preprocess_map_feat f today records
  constructor
  · intro hlen hfin hne
    obtain ⟨qs, hqs⟩ := all_isFinite_exists _ hfin
    rcases qs with _ | ⟨q, l⟩
    · exfalso
      have hl := congrArg List.length hqs
      simp only [List.length_map, List.length_nil] at hl
      omega
    · rw [hmap, hqs]
      apply normVals_minmax_fin
      rw [hqs] at hne
      by_contra hall
      push_neg at hall
      apply hne
      intro a ha b hb
      obtain ⟨x, hx, rfl⟩ := List.mem_map.1 ha
      obtain ⟨y, hy, rfl⟩ := List.mem_map.1 hb
      rw [hall x hx y hy]
  · intro hall
    rw [hmap, normVals_allEq _ hall, List.length_map]

/-- Witness for C1: two surviving records with distinct finite
weight/height ratios normalize to minimum 0 and maximum 1. -/
theorem c1_witness :
    listMin ((preprocess d0 [rOrthodox, rSouthpaw]).map (getF .whr)) = F.fin 0 ∧
    listMax ((preprocess d0 [rOrthodox, rSouthpaw]).map (getF .whr)) = F.fin 1 :=
  (c1_minmax_normalization .whr d0 [rOrthodox, rSouthpaw]).1
    (by decide) (by decide) (by decide)

/-- Counterexample to C1 as stated: with an infinite raw value (weight
`"inf"` survives Pass 1), two records survive and the raw
weight/height ratios are not all equal, yet the normalized maximum is 0
(the infinite record's value becomes NaN), not 1. -/
theorem c1_counterexample :
    ([rOrthodox, rInfinite].filterMap (clean1 d0)).length = 2 ∧
    ¬ allEqL (([rOrthodox, rInfinite].filterMap (clean1 d0)).map (getF .whr)) ∧
    ((preprocess d0 [rOrthodox, rInfinite]).map (getF .whr)
      = [F.fin 0, F.nan]) ∧
    listMax ((preprocess d0 [rOrthodox, rInfinite]).map (getF .whr))
      ≠ F.fin 1 := by decide

/-! ## C3 -/

/-- C3, amended: the non-numeric stance and weight_class enum fields are
never normalized — but neither are their one-hot numeric projections: the
three stance indicator fields pass through Pass 2 unchanged (they are not in
the `normalize` call list); the features that are min-max normalized are
exactly the eleven of `Feat`. -/
theorem c3_normalization_scope (today : Date) (records : List FighterRecord) :
    ((preprocess today records).map (fun c => c.stance)
       = (records.filterMap (clean1 today)).map (fun c => c.stance)) ∧
    ((preprocess today records).map (fun c => c.weight_class)
       = (records.filterMap (clean1 today)).map (fun c => c.weight_class)) ∧
    ((preprocess today records).map (fun c => c.is_orthodox)
       = (records.filterMap (clean1 today)).map (fun c => c.is_orthodox)) ∧
    ((preprocess today records).map (fun c => c.is_southpaw)
       = (records.filterMap (clean1 today)).map (fun c => c.is_southpaw)) ∧
    ((preprocess today records).map (fun c => c.is_switch)
       = (records.filterMap (clean1 today)).map (fun c => c.is_switch)) ∧
    (∀ f : Feat, (preprocess today records).map (getF f)
       = normVals ((records.filterMap (clean1 today)).map (getF f))) := by
  refine ⟨?_, ?_, ?_, ?_, ?_, fun f => preprocess_map_feat f today records⟩ <;>
  · simp only [preprocess]
    rw [normalizeF_map_other, normalizeF_map_other, normalizeF_map_other,
      normalizeF_map_other, normalizeF_map_other, normalizeF_map_other,
      normalizeF_map_other, normalizeF_map_other, normalizeF_map_other,
      normalizeF_map_other, normalizeF_map_other]
    all_goals exact fun r v => rfl

/-- Counterexample to C3 as stated: for a single Orthodox survivor the
stored `is_orthodox` is 1, while min-max normalizing it (min = max = 1, a
constant column) would give 0 — the one-hots are not normalized. -/
theorem c3_counterexample :
    (preprocess d0 [rOrthodox]).map (fun c => c.is_orthodox) = [F.fin 1] ∧
    normVals (([rOrthodox].filterMap (clean1 d0)).map (fun c => c.is_orthodox))
      = [F.fin 0] ∧
    (preprocess d0 [rOrthodox]).map (fun c => c.is_orthodox)
      ≠ normVals
          (([rOrthodox].filterMap (clean1 d0)).map (fun c => c.is_orthodox)) := by
  decide

/-! ## C5 -/

/-- C5: every record `preprocess` outputs has exactly one stance one-hot
set to 1, the other two 0, matching its stance enum. -/
theorem c5_stance_onehot (today : Date) (records : List FighterRecord)
    (c : CleanRecord) (hc : c ∈ preprocess today records) :
    (c.stance = .Orthodox ∧ c.is_orthodox = F.fin 1 ∧
     c.is_southpaw = F.fin 0 ∧ c.is_switch = F.fin 0) ∨
    (c.stance = .Southpaw ∧ c.is_orthodox = F.fin 0 ∧
     c.is_southpaw = F.fin 1 ∧ c.is_switch = F.fin 0) ∨
    (c.stance = .Switch ∧ c.is_orthodox = F.fin 0 ∧
     c.is_southpaw = F.fin 0 ∧ c.is_switch = F.fin 1) := by
  obtain ⟨c', hc', hst, ho, hsp, hsw, hwc⟩ := preprocess_mem hc
  obtain ⟨r, hr, hsome⟩ := List.mem_filterMap.1 hc'
  obtain ⟨-, htuple, -, -, -, -⟩ := clean1_some_fields hsome
  cases h' : c'.stance
  case Orthodox =>
    rw [h'] at htuple
    injection htuple with h1 h23
    injection h23 with h2 h3
    exact Or.inl ⟨hst.trans h', ho.trans h1, hsp.trans h2, hsw.trans h3⟩
  case Southpaw =>
    rw [h'] at htuple
    injection htuple with h1 h23
    injection h23 with h2 h3
    exact Or.inr (Or.inl ⟨hst.trans h', ho.trans h1, hsp.trans h2, hsw.trans h3⟩)
  case Switch =>
    rw [h'] at htuple
    injection htuple with h1 h23
    injection h23 with h2 h3
    exact Or.inr (Or.inr ⟨hst.trans h', ho.trans h1, hsp.trans h2, hsw.trans h3⟩)

/-- Witness for C5 at the concrete single-record run. -/
theorem c5_witness :
    (cOrthodoxPost.stance = .Orthodox ∧ cOrthodoxPost.is_orthodox = F.fin 1 ∧
     cOrthodoxPost.is_southpaw = F.fin 0 ∧ cOrthodoxPost.is_switch = F.fin 0) ∨
    (cOrthodoxPost.stance = .Southpaw ∧ cOrthodoxPost.is_orthodox = F.fin 0 ∧
     cOrthodoxPost.is_southpaw = F.fin 1 ∧ cOrthodoxPost.is_switch = F.fin 0) ∨
    (cOrthodoxPost.stance = .Switch ∧ cOrthodoxPost.is_orthodox = F.fin 0 ∧
     cOrthodoxPost.is_southpaw = F.fin 0 ∧ cOrthodoxPost.is_switch = F.fin 1) :=
  c5_stance_onehot d0 [rOrthodox] cOrthodoxPost (by decide)

/-! ## C6 -/

/-- Zero-takedown variant of the sample record. -/
def rZeroTd : FighterRecord :=
  { rOrthodox with average_takedowns_landed_per_15_minutes := some (F.fin 0) }

/-- `clean1 d0 rZeroTd`: takedown rate 0, so the efficiency metric is 0. -/
def cZeroTd : CleanRecord :=
  { cOrthodoxPre with
    takedown_lpm := F.fin 0
    submission_per_takedown := F.fin 0 }

/-- Negative-takedown variant: `-15` per 15 minutes survives Pass 1. -/
def rNegTd : FighterRecord :=
  { rOrthodox with average_takedowns_landed_per_15_minutes := some (F.fin (-15)) }

/-- C6, amended: for every surviving record the pre-normalization
`submission_per_takedown` equals `submission_lpm / takedown_lpm` whenever
`takedown_lpm > 0`, and is exactly 0 whenever the `> 0` guard fails — in
particular whenever `takedown_lpm` is 0; the division is always guarded by
a strictly positive denominator. (The claim's unconditional "equals the
quotient" fails for a negative takedown rate, which also gets 0.) -/
theorem c6_sub_per_takedown (today : Date) (r : FighterRecord)
    (c : CleanRecord) (h : clean1 today r = some c) :
    (F.lt (F.fin 0) c.takedown_lpm = true →
      c.submission_per_takedown = F.div c.submission_lpm c.takedown_lpm) ∧
    (F.lt (F.fin 0) c.takedown_lpm = false →
      c.submission_per_takedown = F.fin 0) ∧
    (c.takedown_lpm = F.fin 0 → c.submission_per_takedown = F.fin 0) := by
  obtain ⟨-, -, -, -, hspt, -⟩ := clean1_some_fields h
  refine ⟨fun hq => ?_, fun hq => ?_, fun hq => ?_⟩
  · rw [hspt, if_pos hq]
  · rw [hspt]
    simp only [hq, Bool.false_eq_true, if_false]
  · rw [hspt, hq]
    simp [F.lt]

/-- Witness for C6: the positive branch at the sample record and the
zero-takedown branch at its zero-takedown variant. -/
theorem c6_witness :
    (F.lt (F.fin 0) cOrthodoxPre.takedown_lpm = true ∧
     cOrthodoxPre.submission_per_takedown
       = F.div cOrthodoxPre.submission_lpm cOrthodoxPre.takedown_lpm) ∧
    (cZeroTd.takedown_lpm = F.fin 0 ∧
     cZeroTd.submission_per_takedown = F.fin 0) :=
  ⟨⟨by decide, (c6_sub_per_takedown d0 rOrthodox cOrthodoxPre (by decide)).1
      (by decide)⟩,
   ⟨by decide, (c6_sub_per_takedown d0 rZeroTd cZeroTd (by decide)).2.2
      (by decide)⟩⟩

/-- Counterexample to C6 as stated: a surviving record with takedown rate
`-1` per minute (nonzero), whose `submission_per_takedown` is 0, not the
quotient `1 / (-1) = -1`. -/
theorem c6_counterexample :
    (clean1 d0 rNegTd).map
        (fun c => (c.submission_per_takedown, c.takedown_lpm, c.submission_lpm))
      = some (F.fin 0, F.fin (-1), F.fin 1) ∧
    (F.fin (-1) : F) ≠ F.fin 0 ∧
    F.div (F.fin 1) (F.fin (-1)) = F.fin (-1) ∧
    (F.fin 0 : F) ≠ F.fin (-1) := by decide

/-! ## C7 -/

/-- C7: the pre-normalization `win_rate` is `wins / (wins+losses+draws)`,
and exactly 0 when the denominator is 0; the division is guarded. -/
theorem c7_win_rate (today : Date) (r : FighterRecord) (c : CleanRecord)
    (h : clean1 today r = some c) :
    (r.wins + r.losses + r.draws = 0 → c.win_rate = F.fin 0) ∧
    (r.wins + r.losses + r.draws ≠ 0 →
      c.win_rate = F.fin (((r.wins : Nat) : ℚ)
        / ((r.wins + r.losses + r.draws : Nat) : ℚ))) := by
  obtain ⟨-, -, -, -, -, hwr⟩ := clean1_some_fields h
  constructor
  · intro h0
    rw [hwr, h0]
    simp [F.lt]
  · intro h0
    have hpos : (0 : ℚ) < ((r.wins + r.losses + r.draws : Nat) : ℚ) := by
      exact_mod_cast Nat.pos_of_ne_zero h0
    rw [hwr, if_pos (by simp only [F.lt, decide_eq_true_eq]; exact hpos),
      Fdiv_fin _ _ (ne_of_gt hpos)]

/-- Zero-fight variant: no wins, losses or draws. -/
def rZeroFights : FighterRecord :=
  { rOrthodox with wins := 0, losses := 0, draws := 0 }

/-- `clean1 d0 rZeroFights`: like the sample but with `win_rate = 0`. -/
def cZeroFights : CleanRecord := { cOrthodoxPre with win_rate := F.fin 0 }

/-- Witness for C7: the positive branch at the sample record (13 fights,
win rate 10/13) and the guarded branch at the zero-fight variant. -/
theorem c7_witness :
    (rOrthodox.wins + rOrthodox.losses + rOrthodox.draws ≠ 0 ∧
     cOrthodoxPre.win_rate = F.fin (((rOrthodox.wins : Nat) : ℚ)
       / ((rOrthodox.wins + rOrthodox.losses + rOrthodox.draws : Nat) : ℚ))) ∧
    (rZeroFights.wins + rZeroFights.losses + rZeroFights.draws = 0 ∧
     cZeroFights.win_rate = F.fin 0) :=
  ⟨⟨by decide, (c7_win_rate d0 rOrthodox cOrthodoxPre (by decide)).2
      (by decide)⟩,
   ⟨by decide, (c7_win_rate d0 rZeroFights cZeroFights (by decide)).1
      (by decide)⟩⟩

/-! ## C4 -/

/-- NaN-reach variant: `"NaN"` parses as an `f32` NaN. -/
def rNaN : FighterRecord := { rOrthodox with reach_in_cm := some F.nan }

/-- C4, amended: a record whose defaulted numeric inputs include a NaN in
any of the nine checked fields is dropped by Pass 1. (Non-finite but
non-NaN values — the infinities — pass the `is_nan` check and survive; see
the counterexample.) -/
theorem c4_nan_rejected (today : Date) (r : FighterRecord)
    (h : ([r.weight_in_kg.getD (F.fin 0), r.height_cm.getD (F.fin 0),
        r.reach_in_cm.getD (F.fin 0),
        r.significant_strikes_landed_per_minute.getD (F.fin 0),
        r.significant_strikes_absorbed_per_minute.getD (F.fin 0),
        r.average_takedowns_landed_per_15_minutes.getD (F.fin 0),
        r.average_submissions_attempted_per_15_minutes.getD (F.fin 0),
        r.takedown_accuracy.getD (F.fin 0),
        r.takedown_defense.getD (F.fin 0)].any F.isNan) = true) :
    clean1 today r = none := by
  simp only [clean1]
  by_cases hw : (F.le (r.weight_in_kg.getD (F.fin 0)) (F.fin 0) ||
      F.le (r.height_cm.getD (F.fin 0)) (F.fin 0)) = true
  · rw [if_pos hw]
  · rw [if_neg hw, if_pos h]

/-- Witness for C4: the NaN-reach record is dropped. -/
theorem c4_witness :
    ([rNaN.weight_in_kg.getD (F.fin 0), rNaN.height_cm.getD (F.fin 0),
      rNaN.reach_in_cm.getD (F.fin 0),
      rNaN.significant_strikes_landed_per_minute.getD (F.fin 0),
      rNaN.significant_strikes_absorbed_per_minute.getD (F.fin 0),
      rNaN.average_takedowns_landed_per_15_minutes.getD (F.fin 0),
      rNaN.average_submissions_attempted_per_15_minutes.getD (F.fin 0),
      rNaN.takedown_accuracy.getD (F.fin 0),
      rNaN.takedown_defense.getD (F.fin 0)].any F.isNan) = true ∧
    clean1 d0 rNaN = none :=
  ⟨by decide, c4_nan_rejected d0 rNaN (by decide)⟩

/-- Counterexample to C4 as stated: an infinite (hence non-finite) weight
survives the Engineer — the `is_nan` check does not reject infinities. -/
theorem c4_counterexample :
    (rInfinite.weight_in_kg.getD (F.fin 0)).isFinite = false ∧
    (clean1 d0 rInfinite).isSome = true := by decide

/-! ## C10 -/

theorem Flt_zero_iff (w : F) :
    F.lt (F.fin 0) w = true ↔
      (F.le w (F.fin 0) = false ∧ F.isNan w = false) := by
  cases w <;> simp [F.lt, F.le, F.isNan]

theorem fromStr_ok_strings {s : String} {st : Stance}
    (h : Stance.fromStr s = .ok st) :
    s = "Orthodox" ∨ s = "Southpaw" ∨ s = "Switch" := by
  unfold Stance.fromStr at h
  split_ifs at h with h1 h2 h3
  exacts [Or.inl h1, Or.inr (Or.inl h2), Or.inr (Or.inr h3)]

theorem fromStr_strings_ok {s : String}
    (h : s = "Orthodox" ∨ s = "Southpaw" ∨ s = "Switch") :
    ∃ st, Stance.fromStr s = .ok st := by
  rcases h with rfl | rfl | rfl
  · exact ⟨.Orthodox, rfl⟩
  · exact ⟨.Southpaw, rfl⟩
  · exact ⟨.Switch, rfl⟩

/-- C10: a record survives Pass 1 exactly when its defaulted weight and
height are strictly positive (in the IEEE sense: `0 < v`, false for NaN),
its stance string is exactly one of the three labels, and none of the nine
defaulted numeric inputs is NaN. Reach and the performance rates may be
missing or negative. -/
theorem c10_survival (today : Date) (r : FighterRecord) :
    (clean1 today r).isSome = true ↔
      (F.lt (F.fin 0) (r.weight_in_kg.getD (F.fin 0)) = true ∧
       F.lt (F.fin 0) (r.height_cm.getD (F.fin 0)) = true ∧
       (r.stance = "Orthodox" ∨ r.stance = "Southpaw" ∨ r.stance = "Switch") ∧
       (∀ v ∈ [r.weight_in_kg.getD (F.fin 0), r.height_cm.getD (F.fin 0),
          r.reach_in_cm.getD (F.fin 0),
          r.significant_strikes_landed_per_minute.getD (F.fin 0),
          r.significant_strikes_absorbed_per_minute.getD (F.fin 0),
          r.average_takedowns_landed_per_15_minutes.getD (F.fin 0),
          r.average_submissions_attempted_per_15_minutes.getD (F.fin 0),
          r.takedown_accuracy.getD (F.fin 0),
          r.takedown_defense.getD (F.fin 0)], v.isNan = false)) := by
  simp only [clean1]
  by_cases hw : (F.le (r.weight_in_kg.getD (F.fin 0)) (F.fin 0) ||
      F.le (r.height_cm.getD (F.fin 0)) (F.fin 0)) = true
  · rw [if_pos hw]
    constructor
    · intro hfalse; exact absurd hfalse (by simp)
    · rintro ⟨hwt, hht, -, -⟩
      rcases Bool.or_eq_true_iff.1 hw with h1 | h1
      · rw [((Flt_zero_iff _).1 hwt).1] at h1; cases h1
      · rw [((Flt_zero_iff _).1 hht).1] at h1; cases h1
  · rw [if_neg hw]
    have hw1 : F.le (r.weight_in_kg.getD (F.fin 0)) (F.fin 0) = false := by
      revert hw; cases F.le (r.weight_in_kg.getD (F.fin 0)) (F.fin 0) <;> simp
    have hw2 : F.le (r.height_cm.getD (F.fin 0)) (F.fin 0) = false := by
      revert hw; cases F.le (r.height_cm.getD (F.fin 0)) (F.fin 0) <;> simp
    by_cases hn : ([r.weight_in_kg.getD (F.fin 0), r.height_cm.getD (F.fin 0),
        r.reach_in_cm.getD (F.fin 0),
        r.significant_strikes_landed_per_minute.getD (F.fin 0),
        r.significant_strikes_absorbed_per_minute.getD (F.fin 0),
        r.average_takedowns_landed_per_15_minutes.getD (F.fin 0),
        r.average_submissions_attempted_per_15_minutes.getD (F.fin 0),
        r.takedown_accuracy.getD (F.fin 0),
        r.takedown_defense.getD (F.fin 0)].any F.isNan) = true
    · rw [if_pos hn]
      constructor
      · intro hfalse; exact absurd hfalse (by simp)
      · rintro ⟨-, -, -, hnn⟩
        obtain ⟨v, hv, hvnan⟩ := List.any_eq_true.1 hn
        rw [hnn v hv] at hvnan; cases hvnan
    · rw [if_neg hn]
      have hnn : ∀ v ∈ [r.weight_in_kg.getD (F.fin 0),
          r.height_cm.getD (F.fin 0), r.reach_in_cm.getD (F.fin 0),
          r.significant_strikes_landed_per_minute.getD (F.fin 0),
          r.significant_strikes_absorbed_per_minute.getD (F.fin 0),
          r.average_takedowns_landed_per_15_minutes.getD (F.fin 0),
          r.average_submissions_attempted_per_15_minutes.getD (F.fin 0),
          r.takedown_accuracy.getD (F.fin 0),
          r.takedown_defense.getD (F.fin 0)], v.isNan = false := by
        intro v hv
        by_contra hc
        exact hn (List.any_eq_true.2 ⟨v, hv, by
          revert hc; cases v.isNan <;> simp⟩)
      rcases hs : Stance.fromStr r.stance with e | st
      · constructor
        · intro hfalse; exact absurd hfalse (by simp)
        · rintro ⟨-, -, hstr, -⟩
          obtain ⟨st, hst⟩ := fromStr_strings_ok hstr
          rw [hs] at hst; cases hst
      · constructor
        · intro _
          refine ⟨?_, ?_, fromStr_ok_strings hs, hnn⟩
          · exact (Flt_zero_iff _).2 ⟨hw1,
              hnn _ (by simp)⟩
          · exact (Flt_zero_iff _).2 ⟨hw2,
              hnn _ (by simp)⟩
        · intro _
          rfl

/-- Witness for C10, both ways: a record with missing reach and negative
performance rates survives (forward use of the equivalence), and the
all-caps stance string is rejected. -/
def rMissingReach : FighterRecord :=
  { rOrthodox with
    reach_in_cm := none
    significant_strikes_landed_per_minute := some (F.fin (-2))
    average_takedowns_landed_per_15_minutes := some (F.fin (-15)) }

def rCaps : FighterRecord := { rOrthodox with stance := "ORTHODOX" }

theorem c10_witness :
    (clean1 d0 rMissingReach).isSome = true ∧
    (clean1 d0 rCaps).isSome = false :=
  ⟨(c10_survival d0 rMissingReach).2 (by decide),
   by
    have h := (c10_survival d0 rCaps)
    revert h
    cases hv : (clean1 d0 rCaps).isSome
    · intro _; rfl
    · intro h; exact absurd ((h.1 rfl).2.2.1) (by decide)⟩

/-! ## C2 and C9: the Record Loader -/

/-- The records contributed by one row of the load loop: one on successful
deserialization of a well-shaped non-blank row, none otherwise. -/
def rowRecs (des : List String → Option FighterRecord) (expected : Nat)
    (row : Row) : List FighterRecord :=
  if row.fields.all isBlankField then []
  else if row.fields.length ≠ expected then []
  else match des row.fields with
    | some rec => [rec]
    | none => []

/-- The diagnostics contributed by one row. -/
def rowDiags (des : List String → Option FighterRecord) (expected : Nat)
    (row : Row) : List Diag :=
  if row.fields.all isBlankField then []
  else if row.fields.length ≠ expected then
    [Diag.wrongFieldCount row.line expected row.fields.length]
  else match des row.fields with
    | some _ => []
    | none => [Diag.malformed row.line]

theorem rowStep_eq (des : List String → Option FighterRecord) (expected : Nat)
    (acc : List FighterRecord × List Diag) (row : Row) :
    rowStep des expected acc row
      = (acc.1 ++ rowRecs des expected row,
         acc.2 ++ rowDiags des expected row) := by
  unfold rowStep rowRecs rowDiags
  by_cases h1 : row.fields.all isBlankField = true
  · simp [h1]
  · by_cases h2 : row.fields.length ≠ expected
    · simp [h1, h2]
    · rcases hd : des row.fields with _ | rec <;> simp [h1, h2, hd]

theorem loadRows_eq (des : List String → Option FighterRecord)
    (expected : Nat) :
    ∀ (rows : List Row) (accR : List FighterRecord) (accD : List Diag),
    rows.foldl (rowStep des expected) (accR, accD)
      = (accR ++ (rows.map (rowRecs des expected)).flatten,
         accD ++ (rows.map (rowDiags des expected)).flatten) := by
  intro rows
  induction rows with
  | nil => intro accR accD; simp
  | cons row rest ih =>
    intro accR accD
    rw [List.foldl_cons, rowStep_eq, ih]
    simp [List.append_assoc]

/-- Closed form of a successful load: concatenated per-row record and
diagnostic contributions. -/
theorem load_csv_ok (des : List String → Option FighterRecord)
    (hdr : List String) (rows : List Row) :
    load_csv des (.ok (hdr, rows))
      = .ok ((rows.map (rowRecs des hdr.length)).flatten,
             (rows.map (rowDiags des hdr.length)).flatten) := by
  simp [load_csv, loadRows_eq]

/-- C2: `load_csv` errors exactly on the I/O-level fault (the unreadable
source), never on row content: every readable input loads to `.ok`, and a
row that fails arity or deserialization is excluded from the record
sequence without affecting the rest of the load. -/
theorem c2_error_policy (des : List String → Option FighterRecord) :
    (∀ e : String, load_csv des (.error e) = .error e) ∧
    (∀ (hdr : List String) (rows : List Row), ∃ recs diags,
      load_csv des (.ok (hdr, rows)) = .ok (recs, diags)) ∧
    (∀ (hdr : List String) (rows₁ rows₂ : List Row) (row : Row),
      (row.fields.length ≠ hdr.length ∨ des row.fields = none) →
      ∃ recs diags diags',
        load_csv des (.ok (hdr, rows₁ ++ row :: rows₂)) = .ok (recs, diags) ∧
        load_csv des (.ok (hdr, rows₁ ++ rows₂)) = .ok (recs, diags')) := by
  refine ⟨fun e => rfl,
    fun hdr rows => ⟨_, _, load_csv_ok des hdr rows⟩, ?_⟩
  intro hdr rows₁ rows₂ row hbad
  have hnil : rowRecs des hdr.length row = [] := by
    unfold rowRecs
    by_cases h1 : row.fields.all isBlankField = true
    · simp [h1]
    · rcases hbad with h2 | h2
      · simp [h1, h2]
      · by_cases h3 : row.fields.length ≠ hdr.length
        · simp [h1, h3]
        · simp [h1, h3, h2]
  have hrecs : ((rows₁ ++ row :: rows₂).map (rowRecs des hdr.length)).flatten
      = ((rows₁ ++ rows₂).map (rowRecs des hdr.length)).flatten := by
    simp [List.map_append, List.flatten_append, hnil]
  exact ⟨_, _, _, load_csv_ok des hdr _,
    by rw [load_csv_ok, ← hrecs]⟩

/-- C9: a non-blank row of wrong arity contributes exactly one
`wrongFieldCount` diagnostic carrying its line number and the expected and
actual counts, contributes no record, and leaves the rest of the load
unchanged; an all-blank row contributes nothing at all. -/
theorem c9_row_handling (des : List String → Option FighterRecord)
    (expected : Nat) (acc : List FighterRecord × List Diag) (row : Row) :
    (row.fields.all isBlankField = false →
     row.fields.length ≠ expected →
     rowStep des expected acc row
       = (acc.1, acc.2 ++ [Diag.wrongFieldCount row.line expected
            row.fields.length])) ∧
    (row.fields.all isBlankField = true →
     rowStep des expected acc row = acc) ∧
    (∀ (hdr : List String) (rows₁ rows₂ : List Row),
      row.fields.all isBlankField = false →
      row.fields.length ≠ hdr.length →
      ∃ recs diags diags',
        load_csv des (.ok (hdr, rows₁ ++ row :: rows₂)) = .ok (recs, diags) ∧
        load_csv des (.ok (hdr, rows₁ ++ rows₂)) = .ok (recs, diags') ∧
        Diag.wrongFieldCount row.line hdr.length row.fields.length ∈ diags) := by
  refine ⟨fun h1 h2 => ?_, fun h1 => ?_, ?_⟩
  · simp [rowStep, h1, h2]
  · simp [rowStep, h1]
  · intro hdr rows₁ rows₂ h1 h2
    have hnil : rowRecs des hdr.length row = [] := by
      simp [rowRecs, h1, h2]
    have hdiag : rowDiags des hdr.length row
        = [Diag.wrongFieldCount row.line hdr.length row.fields.length] := by
      simp [rowDiags, h1, h2]
    have hrecs : ((rows₁ ++ row :: rows₂).map (rowRecs des hdr.length)).flatten
        = ((rows₁ ++ rows₂).map (rowRecs des hdr.length)).flatten := by
      simp [List.map_append, List.flatten_append, hnil]
    refine ⟨_, _, _, load_csv_ok des hdr _,
      by rw [load_csv_ok, ← hrecs], ?_⟩
    simp [List.map_append, List.flatten_append, hdiag]

/-- A deserializer stub for the loader witnesses: parses nothing. -/
def desNone : List String → Option FighterRecord := fun _ => none

/-- A deserializer stub that parses everything to the sample record. -/
def desConst : List String → Option FighterRecord := fun _ => some rOrthodox

/-- Witness for C2 at concrete inputs: the error input propagates; a
concrete two-row input loads `.ok`; a wrong-arity row in the middle leaves
the loaded records unchanged. -/
theorem c2_witness :
    load_csv desConst (.error "io fault") = .error "io fault" ∧
    (∃ recs diags, load_csv desConst
      (.ok (["h1", "h2"], [⟨2, ["a", "b"]⟩, ⟨3, ["c", "d"]⟩]))
        = .ok (recs, diags)) ∧
    (∃ recs diags diags',
      load_csv desConst (.ok (["h1", "h2"],
          [⟨2, ["a", "b"]⟩] ++ ⟨3, ["x"]⟩ :: [⟨4, ["c", "d"]⟩]))
        = .ok (recs, diags) ∧
      load_csv desConst (.ok (["h1", "h2"],
          [⟨2, ["a", "b"]⟩] ++ [⟨4, ["c", "d"]⟩]))
        = .ok (recs, diags')) :=
  ⟨(c2_error_policy desConst).1 "io fault",
   (c2_error_policy desConst).2.1 ["h1", "h2"] [⟨2, ["a", "b"]⟩, ⟨3, ["c", "d"]⟩],
   (c2_error_policy desConst).2.2 ["h1", "h2"] [⟨2, ["a", "b"]⟩]
     [⟨4, ["c", "d"]⟩] ⟨3, ["x"]⟩ (Or.inl (by decide))⟩

/-- Witness for C9 at concrete inputs: a one-field row against a two-column
header is rejected with the line-numbered diagnostic; a whitespace-only row
is silently skipped; the load around the bad row is unaffected and carries
the diagnostic. -/
theorem c9_witness :
    (rowStep desConst 2 ([], []) ⟨7, ["x"]⟩
      = ([], [Diag.wrongFieldCount 7 2 1])) ∧
    (rowStep desConst 2 ([], []) ⟨8, ["", "  "]⟩ = ([], [])) ∧
    (∃ recs diags diags',
      load_csv desConst (.ok (["h1", "h2"],
          [⟨2, ["a", "b"]⟩] ++ ⟨7, ["x"]⟩ :: [⟨4, ["c", "d"]⟩]))
        = .ok (recs, diags) ∧
      load_csv desConst (.ok (["h1", "h2"],
          [⟨2, ["a", "b"]⟩] ++ [⟨4, ["c", "d"]⟩]))
        = .ok (recs, diags') ∧
      Diag.wrongFieldCount 7 2 1 ∈ diags) :=
  ⟨(c9_row_handling desConst 2 ([], []) ⟨7, ["x"]⟩).1 (by decide) (by decide),
   (c9_row_handling desConst 2 ([], []) ⟨8, ["", "  "]⟩).2.1 (by decide),
   (c9_row_handling desConst 2 ([], []) ⟨7, ["x"]⟩).2.2 ["h1", "h2"]
     [⟨2, ["a", "b"]⟩] [⟨4, ["c", "d"]⟩] (by decide) (by decide)⟩

/-! ## C8 -/

/-- C8: the regression input is one `featureRow` per surviving record, in
record order, with the fixed 19-column layout — columns 0–1 the stance
one-hots with Orthodox omitted, columns 2–8 the weight-class one-hots
Bantamweight through Heavyweight with Flyweight omitted, columns 9–18 the
ten numeric features — and the parallel target vector is `win_rate`. -/
theorem c8_feature_matrix (records : List CleanRecord) (i : Nat)
    (r : CleanRecord) (h : records[i]? = some r) :
    (featureMatrix records).length = records.length ∧
    (targetVector records).length = records.length ∧
    (featureMatrix records)[i]? = some [r.is_southpaw, r.is_switch,
      boolF (r.weight_class = .Bantamweight),
      boolF (r.weight_class = .Featherweight),
      boolF (r.weight_class = .Lightweight),
      boolF (r.weight_class = .Welterweight),
      boolF (r.weight_class = .Middleweight),
      boolF (r.weight_class = .LightHeavyweight),
      boolF (r.weight_class = .Heavyweight),
      r.weight_height_ratio, r.reach_height_ratio, r.submission_per_takedown,
      r.age, r.significant_strikes_lpm, r.strike_diff, r.takedown_lpm,
      r.submission_lpm, r.takedown_accuracy, r.takedown_defense] ∧
    (targetVector records)[i]? = some r.win_rate := by
  refine ⟨by simp [featureMatrix], by simp [targetVector], ?_, ?_⟩
  · rw [featureMatrix, List.getElem?_map, h]; rfl
  · rw [targetVector, List.getElem?_map, h]; rfl

/-- Witness for C8 at the concrete one-record matrix. -/
theorem c8_witness :
    (featureMatrix [cOrthodoxPre]).length = [cOrthodoxPre].length ∧
    (targetVector [cOrthodoxPre]).length = [cOrthodoxPre].length ∧
    (featureMatrix [cOrthodoxPre])[0]? = some [cOrthodoxPre.is_southpaw,
      cOrthodoxPre.is_switch,
      boolF (cOrthodoxPre.weight_class = .Bantamweight),
      boolF (cOrthodoxPre.weight_class = .Featherweight),
      boolF (cOrthodoxPre.weight_class = .Lightweight),
      boolF (cOrthodoxPre.weight_class = .Welterweight),
      boolF (cOrthodoxPre.weight_class = .Middleweight),
      boolF (cOrthodoxPre.weight_class = .LightHeavyweight),
      boolF (cOrthodoxPre.weight_class = .Heavyweight),
      cOrthodoxPre.weight_height_ratio, cOrthodoxPre.reach_height_ratio,
      cOrthodoxPre.submission_per_takedown, cOrthodoxPre.age,
      cOrthodoxPre.significant_strikes_lpm, cOrthodoxPre.strike_diff,
      cOrthodoxPre.takedown_lpm, cOrthodoxPre.submission_lpm,
      cOrthodoxPre.takedown_accuracy, cOrthodoxPre.takedown_defense] ∧
    (targetVector [cOrthodoxPre])[0]? = some cOrthodoxPre.win_rate :=
  c8_feature_matrix [cOrthodoxPre] 0 cOrthodoxPre (by decide)
